import Mathlib

/-
  Verification of the iterator dispatch / pickle-state module of
  picklable-itertools (src/picklable_itertools/iter_dispatch.py).

  Shallow embedding conventions:
  * Python object identity for mutable containers is modelled by a store
    (a list of cells, addressed by position); lists, tuples, arrays and the
    key sequence of a dict live in store cells.
  * The file system is a partial map from names to contents; an open handle
    records the name, the mode it was opened with, the content visible to
    it and the current byte offset.  `open` fails (IOError) when the name
    does not resolve.  For gzip handles the content is the decompressed
    view and the handle additionally records the integer `mode` flag of the
    GzipFile object (1 = READ) and the mode string of the underlying raw
    file object (`myfileobj.mode`).
  * `__next__`, `__getstate__`, `__setstate__` are embedded as `next`,
    `getstate`, `setstate`.  Fallible operations return `Except String`.
-/

inductive Val where
  | int : Int → Val
  | str : String → Val
deriving DecidableEq, Repr

/-- The heap of mutable containers: cell `a` holds the list stored there. -/
abbrev Store := List (List Val)

/-- The file system: maps a name to the byte content it currently holds
(`none` when the name does not resolve to a readable resource). -/
abbrev FS := String → Option (List Char)

/-- A plain open file handle: name, open-mode string, content seen by the
handle, and current byte offset (`tell`). -/
structure Handle where
  name : String
  mode : String
  content : List Char
  pos : Nat
deriving DecidableEq, Repr

/-- A GzipFile handle.  `mode` is the GzipFile object's own integer mode
flag (1 = READ, 2 = WRITE) — not an open-mode string; `myfileobj_mode` is
the mode string of the raw file object nested inside the wrapper
(`self._f.myfileobj.mode` in the source).  `content` is the decompressed
view; `pos` is the offset in the decompressed stream. -/
structure GzHandle where
  name : String
  mode : Nat
  myfileobj_mode : String
  content : List Char
  pos : Nat
deriving DecidableEq, Repr

/-- Model of `open(name, mode=mode)`: fails when the name does not resolve. -/
def pyOpen (fs : FS) (name mode : String) : Except String Handle :=
  match fs name with
  | some c => .ok ⟨name, mode, c, 0⟩
  | none => .error "IOError"

/-- Model of `gzip.open(name, mode=mode)`: reads through the decompressed view
`gfs`; the resulting GzipFile is open for reading (mode flag 1) and its
raw file object was opened with the given mode string. -/
def gzipOpen (gfs : FS) (name mode : String) : Except String GzHandle :=
  match gfs name with
  | some c => .ok ⟨name, 1, mode, c, 0⟩
  | none => .error "IOError"

/-- The chars of one line: everything up to and including the first
newline (or to the end of input when no newline remains). -/
def takeLine : List Char → List Char
  | [] => []
  | c :: cs => if c = '\n' then [c] else c :: takeLine cs

/-- Model of `f.readline()`: the next line starting at the current offset, and the
handle advanced past it.  At end of stream the line is empty and the
offset does not move. -/
def Handle.readline (h : Handle) : List Char × Handle :=
  let line := takeLine (h.content.drop h.pos)
  (line, { h with pos := h.pos + line.length })

def Handle.tell (h : Handle) : Nat := h.pos

def Handle.seek (h : Handle) (p : Nat) : Handle := { h with pos := p }

def GzHandle.readline (h : GzHandle) : List Char × GzHandle :=
  let line := takeLine (h.content.drop h.pos)
  (line, { h with pos := h.pos + line.length })

def GzHandle.tell (h : GzHandle) : Nat := h.pos

def GzHandle.seek (h : GzHandle) (p : Nat) : GzHandle := { h with pos := p }

/-- Embeds `class ordered_sequence_iterator` — holds a reference to the container
cell and a position index. -/
structure ordered_sequence_iterator where
  _sequence : Nat
  _position : Nat
deriving DecidableEq, Repr

/-- Embeds `ordered_sequence_iterator.__next__`, kept with the store it ran
against in the result so that the absence of store mutation is itself a
provable statement: the method reads `self._sequence[self._position]` and
writes only `self._position`. -/
def ordered_sequence_iterator.nextFull (σ : Store) (it : ordered_sequence_iterator) :
    Store × Option Val × ordered_sequence_iterator :=
  let s := σ.getD it._sequence []
  if h : it._position < s.length then
    (σ, some (s.get ⟨it._position, h⟩), { it with _position := it._position + 1 })
  else
    (σ, none, it)

def ordered_sequence_iterator.next (σ : Store) (it : ordered_sequence_iterator) :
    Option Val × ordered_sequence_iterator :=
  (ordered_sequence_iterator.nextFull σ it).2

/-- Modelled from the spec: `BaseItertool` (base.py) is not under src/ and
iter_dispatch.py defines no `__getstate__` for this class, so pickling uses
the default protocol, which captures the instance dict.  Per spec section
4.1, `capture_state()` returns `(sequence_reference, position)`. -/
def ordered_sequence_iterator.getstate (it : ordered_sequence_iterator) : Nat × Nat :=
  (it._sequence, it._position)

/-- Modelled from the spec: default-protocol restore; per spec section 4.1,
`restore_state(state)` sets both fields directly, no I/O. -/
def ordered_sequence_iterator.setstate (st : Nat × Nat) : ordered_sequence_iterator :=
  ⟨st.1, st.2⟩

/-- Embeds `class range_iterator` — `__init__` stores start/stop/step of the
xrange and sets `_n` to start. -/
structure range_iterator where
  _start : Int
  _stop : Int
  _step : Int
  _n : Int
deriving DecidableEq, Repr

/-- Embeds `range_iterator.__next__`. -/
def range_iterator.next (it : range_iterator) : Option Int × range_iterator :=
  if (it._step > 0 ∧ it._n < it._stop) ∨ (it._step < 0 ∧ it._n > it._stop) then
    (some it._n, { it with _n := it._n + it._step })
  else
    (none, it)

/-- Modelled from the spec: default-protocol state capture (base.py is not
under src/); the instance dict holds the four integer fields. -/
def range_iterator.getstate (it : range_iterator) : Int × Int × Int × Int :=
  (it._start, it._stop, it._step, it._n)

/-- Modelled from the spec: default-protocol restore sets the fields. -/
def range_iterator.setstate (st : Int × Int × Int × Int) : range_iterator :=
  ⟨st.1, st.2.1, st.2.2.1, st.2.2.2⟩

/-- Embeds `class file_iterator` — wraps one open handle. -/
structure file_iterator where
  _f : Handle
deriving DecidableEq, Repr

/-- Embeds `file_iterator.__next__`: `line = self._f.readline()`; empty line
signals StopIteration, otherwise the line is returned. -/
def file_iterator.next (it : file_iterator) : Option (List Char) × file_iterator :=
  let r := it._f.readline
  if r.1 = [] then (none, ⟨r.2⟩) else (some r.1, ⟨r.2⟩)

/-- Embeds `file_iterator.__getstate__`: `(self._f.name, self._f.tell(), self._f.mode)`. -/
def file_iterator.getstate (it : file_iterator) : String × Nat × String :=
  (it._f.name, it._f.tell, it._f.mode)

/-- Embeds `file_iterator.__setstate__`: `self._f = open(name, mode=mode)` then
`self._f.seek(pos)`.  A failing open propagates. -/
def file_iterator.setstate (fs : FS) (st : String × Nat × String) :
    Except String file_iterator :=
  match pyOpen fs st.1 st.2.2 with
  | .ok f => .ok ⟨f.seek st.2.1⟩
  | .error e => .error e

/-- Embeds `class gfile_iterator(file_iterator)` — wraps a GzipFile handle;
`__next__` is inherited. -/
structure gfile_iterator where
  _f : GzHandle
deriving DecidableEq, Repr

/-- Inherited `__next__` running on the GzipFile handle. -/
def gfile_iterator.next (it : gfile_iterator) : Option (List Char) × gfile_iterator :=
  let r := it._f.readline
  if r.1 = [] then (none, ⟨r.2⟩) else (some r.1, ⟨r.2⟩)

/-- Embeds `gfile_iterator.__getstate__`:
`(self._f.name, self._f.tell(), self._f.myfileobj.mode)` — the mode is
read from the raw file object nested inside the compression wrapper. -/
def gfile_iterator.getstate (it : gfile_iterator) : String × Nat × String :=
  (it._f.name, it._f.tell, it._f.myfileobj_mode)

/-- Embeds `gfile_iterator.__setstate__`: `self._f = gzip.open(name, mode=mode)`
then `self._f.seek(pos)` — reopening goes through the decompressing open
call. -/
def gfile_iterator.setstate (gfs : FS) (st : String × Nat × String) :
    Except String gfile_iterator :=
  match gzipOpen gfs st.1 st.2.2 with
  | .ok f => .ok ⟨f.seek st.2.1⟩
  | .error e => .error e

/-- The host-level runtime shapes the dispatcher inspects. -/
inductive PyObj where
  | dict (addr : Nat)
  | gzipfile (h : GzHandle)
  | file (h : Handle)
  | list (addr : Nat)
  | tuple (addr : Nat)
  | xrange (start stop step : Int)
  | ndarray (addr : Nat)
  | dict_view (keys : List Val)
  | other (tag : Nat)
deriving DecidableEq, Repr

/-- The host's native iterator over a stored sequence (what `iter(obj)`
returns for a list/tuple/array on the fallback path): also a shared
reference plus an index. -/
structure native_sequence_iter where
  ref : Nat
  idx : Nat
deriving DecidableEq, Repr

def native_sequence_iter.next (σ : Store) (it : native_sequence_iter) :
    Option Val × native_sequence_iter :=
  let s := σ.getD it.ref []
  if h : it.idx < s.length then
    (some (s.get ⟨it.idx, h⟩), { it with idx := it.idx + 1 })
  else
    (none, it)

/-- What `iter_` can return. -/
inductive IterObj where
  | osi : ordered_sequence_iterator → IterObj
  | gfileIt : gfile_iterator → IterObj
  | fileIt : file_iterator → IterObj
  | rangeIt : range_iterator → IterObj
  | nativeSeq : native_sequence_iter → IterObj
  | nativeOther : Nat → IterObj
deriving DecidableEq, Repr

def IterObj.isOSI : IterObj → Bool
  | .osi _ => true
  | _ => false

/-- Model of `iter(obj)` — the host fallback at the end of `iter_`. -/
def host_iter : PyObj → IterObj
  | .list a => .nativeSeq ⟨a, 0⟩
  | .tuple a => .nativeSeq ⟨a, 0⟩
  | .ndarray a => .nativeSeq ⟨a, 0⟩
  | .dict_view _ => .nativeOther 0
  | _ => .nativeOther 0

/-- Embeds `iter_(obj)` — the dispatcher.  Checks run in source order: dict,
GzipFile, generic file, then the Python-2-only branch (list/tuple, xrange,
ndarray when numpy is importable), then the Python-3 dict-view branch,
then the native fallback.  The dict branch materializes `list(obj.keys())`
into a fresh cell; the dict-view branch materializes `list(obj)` likewise;
the Python-2 list/tuple/ndarray branches store the given reference. -/
def iter_ (py2 numpy_available : Bool) (σ : Store) (obj : PyObj) : Store × IterObj :=
  match obj with
  | .dict a => (σ ++ [σ.getD a []], .osi ⟨σ.length, 0⟩)
  | .gzipfile h => (σ, .gfileIt ⟨h⟩)
  | .file h => (σ, .fileIt ⟨h⟩)
  | _ =>
    if py2 then
      match obj with
      | .list a => (σ, .osi ⟨a, 0⟩)
      | .tuple a => (σ, .osi ⟨a, 0⟩)
      | .xrange s e st => (σ, .rangeIt ⟨s, e, st, s⟩)
      | .ndarray a =>
        if numpy_available then (σ, .osi ⟨a, 0⟩) else (σ, host_iter obj)
      | _ => (σ, host_iter obj)
    else
      match obj with
      | .dict_view ks => (σ ++ [ks], .osi ⟨σ.length, 0⟩)
      | _ => (σ, host_iter obj)

/-- The inner iterator of a `codecs_iterator`: the second `assert` in
`codecs_iterator.__init__` guarantees it is a `file_iterator` or a
`gfile_iterator`. -/
inductive FileIt where
  | plain : file_iterator → FileIt
  | gz : gfile_iterator → FileIt
deriving DecidableEq, Repr

def FileIt.rawContent : FileIt → List Char
  | .plain fi => fi._f.content
  | .gz g => g._f.content

def FileIt.rawPos : FileIt → Nat
  | .plain fi => fi._f.pos
  | .gz g => g._f.pos

def FileIt.setRawPos : FileIt → Nat → FileIt
  | .plain fi, p => .plain ⟨{ fi._f with pos := p }⟩
  | .gz g, p => .gz ⟨{ g._f with pos := p }⟩

inductive FileItKind where
  | plain
  | gz
deriving DecidableEq, Repr

def FileIt.kind : FileIt → FileItKind
  | .plain _ => .plain
  | .gz _ => .gz

/-- Recursive pickling of the inner iterator uses its own `__getstate__`
(plus the class tag pickle records). -/
def FileIt.getstate : FileIt → String × Nat × String
  | .plain fi => fi.getstate
  | .gz g => g.getstate

/-- Recursive unpickling of the inner iterator: its own `__setstate__`
runs, reopening through `open` or `gzip.open` according to the class. -/
def FileIt.setstate (fs gfs : FS) : FileItKind → String × Nat × String →
    Except String FileIt
  | .plain, st => (file_iterator.setstate fs st).map .plain
  | .gz, st => (gfile_iterator.setstate gfs st).map .gz

/-- The four buffer attributes of a codecs stream reader
(`bytebuffer`, `charbuffer`, `linebuffer`, `errors`); per spec section 6
they fully determine the decoder's internal state beyond the raw handle. -/
structure Buffers where
  bytebuffer : List Char
  charbuffer : List Char
  linebuffer : Option (List (List Char))
  errors : String
deriving DecidableEq, Repr

/-- The behavior of a decoder's `readline()`: from the four buffers, the
raw content and the raw offset, produce the decoded line (empty at end of
stream), the new buffers and the new raw offset.  The decoder is an
external collaborator, so claims about `codecs_iterator` are proved for
every decoder of this shape. -/
abbrev DecoderStep := Buffers → List Char → Nat → List Char × Buffers × Nat

/-- Embeds `class codecs_iterator` — `self._stream` shares the raw handle with
`self._file_iterator._f` (the stream generator is applied to that very
object), so the handle is stored once, in `_file_iterator`; the stream's
own remaining state is its four buffers. -/
structure codecs_iterator where
  _file_iterator : FileIt
  _stream : Buffers
deriving DecidableEq, Repr

/-- Embeds `codecs_iterator.__init__(f, stream)`: asserts `f` is a GzipFile or a
file object, calls `iter_(f)`, asserts the result is a `file_iterator` or
`gfile_iterator`, and builds the stream over the shared raw handle with
the generator's fresh buffers `initB`. -/
def codecs_iterator.init (py2 numpy_available : Bool) (σ : Store) (f : PyObj)
    (initB : Buffers) : Except String codecs_iterator :=
  match f with
  | .gzipfile _ | .file _ =>
    match (iter_ py2 numpy_available σ f).2 with
    | .fileIt fi => .ok ⟨.plain fi, initB⟩
    | .gfileIt g => .ok ⟨.gz g, initB⟩
    | _ => .error "AssertionError"
  | _ => .error "AssertionError"

/-- Embeds `codecs_iterator.__next__`: `line = self._stream.readline()`, where
the stream reads from the shared raw handle; an empty line signals
StopIteration. -/
def codecs_iterator.next (step : DecoderStep) (it : codecs_iterator) :
    Option (List Char) × codecs_iterator :=
  let r := step it._stream it._file_iterator.rawContent it._file_iterator.rawPos
  let it2 : codecs_iterator := ⟨it._file_iterator.setRawPos r.2.2, r.2.1⟩
  if r.1 = [] then (none, it2) else (some r.1, it2)

/-- The pickled state of a `codecs_iterator`: the inner iterator (pickled
recursively: class tag plus its own state triple), the stream generator
(restored to the same callable by pickle, so not represented as data), and
the four buffer attributes. -/
structure CodecsState where
  inner_kind : FileItKind
  inner_state : String × Nat × String
  bytebuffer : List Char
  charbuffer : List Char
  linebuffer : Option (List (List Char))
  errors : String
deriving DecidableEq, Repr

/-- Embeds `codecs_iterator.__getstate__`: the inner iterator, the generator and
the four buffer attributes. -/
def codecs_iterator.getstate (it : codecs_iterator) : CodecsState :=
  ⟨it._file_iterator.kind, it._file_iterator.getstate,
   it._stream.bytebuffer, it._stream.charbuffer,
   it._stream.linebuffer, it._stream.errors⟩

/-- Unpickling a `codecs_iterator` state: the embedded inner iterator is
reconstructed first via its own `__setstate__` (reopening the resource),
then `codecs_iterator.__setstate__` (lines 117-124) builds
`self._stream = self._stream_generator(self._file_iterator._f)` — a fresh
decoder over the reopened raw handle, with the generator's fresh buffers
`initB` — and finally overwrites its four buffer attributes with the
captured values. -/
def codecs_iterator.setstate (fs gfs : FS) (initB : Buffers) (st : CodecsState) :
    Except String codecs_iterator :=
  match FileIt.setstate fs gfs st.inner_kind st.inner_state with
  | .error e => .error e
  | .ok fi =>
    let stream0 := initB
    .ok ⟨fi,
      { stream0 with
          bytebuffer := st.bytebuffer
          charbuffer := st.charbuffer
          linebuffer := st.linebuffer
          errors := st.errors }⟩

/-- The observable attributes of a `codecs_iterator` object while
`__setstate__` runs on it: each field either still holds its prior value
or has been assigned.  `_stream_generator` records only whether the
attribute has been (re)assigned. -/
structure codecs_obj where
  _file_iterator : Option FileIt
  _stream_generator : Bool
  _stream : Option Buffers
deriving DecidableEq, Repr

/-- Embeds `codecs_iterator.__setstate__` as a mutation trace over the object it
runs on: line 118-119 unpacks the state tuple and assigns
`self._file_iterator` and `self._stream_generator`; line 120 then calls
the stream generator (`facRes` is its result — the generator is an
arbitrary callable and may raise); only if that call returns does line
121-124 assign `self._stream` and overwrite its four buffers.  The second
component reports the exception, if any, that escaped. -/
def codecs_iterator.setstate_mut (facRes : Except String Buffers)
    (self : codecs_obj) (st : FileIt × Buffers) : codecs_obj × Option String :=
  let self1 : codecs_obj :=
    { self with _file_iterator := some st.1, _stream_generator := true }
  match facRes with
  | .error e => (self1, some e)
  | .ok b0 =>
    ({ self1 with
        _stream := some
          { b0 with
              bytebuffer := st.2.bytebuffer
              charbuffer := st.2.charbuffer
              linebuffer := st.2.linebuffer
              errors := st.2.errors } }, none)

/-- Embeds `file_iterator.__setstate__` as a mutation trace: `self._f` is
assigned only after `open(name, mode=mode)` returns; a failing open leaves
the object untouched. -/
def file_iterator.setstate_mut (fs : FS) (self : Option Handle)
    (st : String × Nat × String) : Option Handle × Option String :=
  match pyOpen fs st.1 st.2.2 with
  | .error e => (self, some e)
  | .ok f => (some (f.seek st.2.1), none)

/-- Run an iterator for up to `n` calls to `next`, collecting the values
produced; stops early at the first exhaustion signal. -/
def runIter (next : α → Option β × α) : Nat → α → List β × α
  | 0, it => ([], it)
  | n + 1, it =>
    match next it with
    | (some v, it2) =>
      ((v :: (runIter next n it2).1), (runIter next n it2).2)
    | (none, it2) => ([], it2)

/-- A decoder whose readline has reached end of stream stays at end of
stream without further state change — the behavior of a codecs
StreamReader at EOF.  Claims about repeated exhaustion of the decoded
stream hold for every decoder with this property. -/
def StepFix (step : DecoderStep) : Prop :=
  ∀ b c p, (step b c p).1 = [] →
    step (step b c p).2.1 c (step b c p).2.2 = ([], (step b c p).2.1, (step b c p).2.2)

theorem osi_next_none_fix (σ : Store) (it it' : ordered_sequence_iterator)
    (h : ordered_sequence_iterator.next σ it = (none, it')) :
    it' = it ∧ ordered_sequence_iterator.next σ it' = (none, it') := by
  simp only [ordered_sequence_iterator.next, ordered_sequence_iterator.nextFull] at h ⊢
  by_cases hp : it._position < (σ.getD it._sequence []).length
  · rw [dif_pos hp] at h
    exact absurd (congrArg Prod.fst h) (by simp)
  · rw [dif_neg hp] at h
    simp only [Prod.mk.injEq] at h
    rcases h with ⟨-, h2⟩
    subst h2
    rw [dif_neg hp]
    exact ⟨rfl, rfl⟩

theorem file_next_none_fix (it it' : file_iterator)
    (h : file_iterator.next it = (none, it')) :
    it' = it ∧ file_iterator.next it' = (none, it') := by
  unfold file_iterator.next Handle.readline at h ⊢
  by_cases hl : takeLine (it._f.content.drop it._f.pos) = []
  · simp [hl] at h
    have hit : it' = it := by
      rw [← h]
    subst hit
    simp [hl]
  · simp [hl] at h

theorem gfile_next_none_fix (it it' : gfile_iterator)
    (h : gfile_iterator.next it = (none, it')) :
    it' = it ∧ gfile_iterator.next it' = (none, it') := by
  unfold gfile_iterator.next GzHandle.readline at h ⊢
  by_cases hl : takeLine (it._f.content.drop it._f.pos) = []
  · simp [hl] at h
    have hit : it' = it := by
      rw [← h]
    subst hit
    simp [hl]
  · simp [hl] at h

theorem range_next_none_fix (it it' : range_iterator)
    (h : range_iterator.next it = (none, it')) :
    it' = it ∧ range_iterator.next it' = (none, it') := by
  unfold range_iterator.next at h ⊢
  by_cases hc : (it._step > 0 ∧ it._n < it._stop) ∨ (it._step < 0 ∧ it._n > it._stop)
  · simp [hc] at h
  · simp [hc] at h
    subst h
    simp [hc]

theorem fileit_raw_setRawPos (fi : FileIt) (p : Nat) :
    (fi.setRawPos p).rawContent = fi.rawContent ∧ (fi.setRawPos p).rawPos = p := by
  cases fi <;> simp [FileIt.setRawPos, FileIt.rawContent, FileIt.rawPos]

theorem fileit_setRawPos_setRawPos (fi : FileIt) (p q : Nat) :
    (fi.setRawPos p).setRawPos q = fi.setRawPos q := by
  cases fi <;> simp [FileIt.setRawPos]

theorem codecs_next_none_fix (step : DecoderStep) (hs : StepFix step)
    (it it' : codecs_iterator)
    (h : codecs_iterator.next step it = (none, it')) :
    codecs_iterator.next step it' = (none, it') := by
  unfold codecs_iterator.next at h ⊢
  by_cases hl : (step it._stream it._file_iterator.rawContent it._file_iterator.rawPos).1 = []
  · simp [hl] at h
    have hfix := hs it._stream it._file_iterator.rawContent it._file_iterator.rawPos hl
    rw [← h]
    simp [(fileit_raw_setRawPos it._file_iterator _).1,
          (fileit_raw_setRawPos it._file_iterator _).2, hfix,
          fileit_setRawPos_setRawPos]
  · simp [hl] at h

theorem runIter_none (next : α → Option β × α) (it : α)
    (h : next it = (none, it)) : ∀ m, runIter next m it = ([], it)
  | 0 => rfl
  | m + 1 => by simp [runIter, h]

theorem runIter_append (next : α → Option β × α)
    (hfix : ∀ a a', next a = (none, a') → next a' = (none, a')) :
    ∀ (k m : Nat) (it : α),
    runIter next (k + m) it =
      ((runIter next k it).1 ++ (runIter next m (runIter next k it).2).1,
       (runIter next m (runIter next k it).2).2) := by
  intro k
  induction k with
  | zero =>
    intro m it
    simp [runIter]
  | succ k ih =>
    intro m it
    have hadd : k + 1 + m = (k + m) + 1 := by omega
    rw [hadd]
    cases hn : next it with
    | mk o it2 =>
      cases o with
      | some v =>
        simp only [runIter, hn]
        simp [ih m it2]
      | none =>
        have h2 : next it2 = (none, it2) := hfix it it2 hn
        simp only [runIter, hn]
        simp [runIter_none next it2 h2 m]

theorem file_setstate_getstate (fs : FS) (it : file_iterator)
    (hfs : fs it._f.name = some it._f.content) :
    file_iterator.setstate fs (file_iterator.getstate it) = .ok it := by
  simp [file_iterator.setstate, file_iterator.getstate, pyOpen, hfs,
        Handle.seek, Handle.tell]

theorem gfile_setstate_getstate (gfs : FS) (it : gfile_iterator)
    (hfs : gfs it._f.name = some it._f.content) (hmode : it._f.mode = 1) :
    gfile_iterator.setstate gfs (gfile_iterator.getstate it) = .ok it := by
  simp [gfile_iterator.setstate, gfile_iterator.getstate, gzipOpen, hfs,
        GzHandle.seek, GzHandle.tell]
  cases it with
  | mk f =>
    cases f
    simp_all

/-- The restored inner iterator matches the captured one: the named
resource still holds the handle's content and (for the compressed case)
the GzipFile is open for reading. -/
def InnerConsistent (fs gfs : FS) : FileIt → Prop
  | .plain fi => fs fi._f.name = some fi._f.content
  | .gz g => gfs g._f.name = some g._f.content ∧ g._f.mode = 1

theorem fileit_setstate_getstate (fs gfs : FS) (fi : FileIt)
    (h : InnerConsistent fs gfs fi) :
    FileIt.setstate fs gfs fi.kind fi.getstate = .ok fi := by
  cases fi with
  | plain f =>
    simp [FileIt.setstate, FileIt.kind, FileIt.getstate, Except.map,
          file_setstate_getstate fs f h]
  | gz g =>
    simp [FileIt.setstate, FileIt.kind, FileIt.getstate, Except.map,
          gfile_setstate_getstate gfs g h.1 h.2]

theorem codecs_setstate_getstate (fs gfs : FS) (initB : Buffers)
    (it : codecs_iterator) (h : InnerConsistent fs gfs it._file_iterator) :
    codecs_iterator.setstate fs gfs initB (codecs_iterator.getstate it) = .ok it := by
  simp [codecs_iterator.setstate, codecs_iterator.getstate,
        fileit_setstate_getstate fs gfs it._file_iterator h]

theorem osi_next_lt (σ : Store) (a p : Nat) (h : p < (σ.getD a []).length) :
    ordered_sequence_iterator.next σ ⟨a, p⟩ =
      (some ((σ.getD a []).get ⟨p, h⟩), ⟨a, p + 1⟩) := by
  simp only [ordered_sequence_iterator.next, ordered_sequence_iterator.nextFull]
  rw [dif_pos h]

theorem osi_next_ge (σ : Store) (a p : Nat) (h : ¬ p < (σ.getD a []).length) :
    ordered_sequence_iterator.next σ ⟨a, p⟩ = (none, ⟨a, p⟩) := by
  simp only [ordered_sequence_iterator.next, ordered_sequence_iterator.nextFull]
  rw [dif_neg h]

theorem osi_next_ref (σ : Store) (it : ordered_sequence_iterator) :
    ((ordered_sequence_iterator.next σ it).2)._sequence = it._sequence := by
  simp only [ordered_sequence_iterator.next, ordered_sequence_iterator.nextFull]
  split <;> rfl

/-- The state reached from `⟨a, p⟩` after `k` calls: the reference is
unchanged and the position advances to `min (p + k) length`. -/
theorem osi_run_state (σ : Store) :
    ∀ (k a p : Nat), p ≤ (σ.getD a []).length →
    (runIter (ordered_sequence_iterator.next σ) k ⟨a, p⟩).2 =
      ⟨a, min (p + k) (σ.getD a []).length⟩ := by
  intro k
  induction k with
  | zero =>
    intro a p hp
    simp only [runIter, ordered_sequence_iterator.mk.injEq]
    constructor
    · trivial
    · omega
  | succ k ih =>
    intro a p hp
    by_cases h : p < (σ.getD a []).length
    · simp only [runIter, osi_next_lt σ a p h]
      rw [ih a (p + 1) h]
      simp only [ordered_sequence_iterator.mk.injEq, true_and]
      omega
    · simp only [runIter, osi_next_ge σ a p h, ordered_sequence_iterator.mk.injEq,
                 true_and]
      omega

theorem osi_next_congr (σ₁ σ₂ : Store) (it : ordered_sequence_iterator)
    (h : σ₁.getD it._sequence [] = σ₂.getD it._sequence []) :
    ordered_sequence_iterator.next σ₁ it = ordered_sequence_iterator.next σ₂ it := by
  cases it with
  | mk a p =>
    simp only at h
    by_cases hp : p < (σ₂.getD a []).length
    · rw [osi_next_lt σ₂ a p hp, osi_next_lt σ₁ a p (by rw [h]; exact hp)]
      simp only [List.getD_eq_getElem?_getD] at h
      simp [h]
    · rw [osi_next_ge σ₂ a p hp, osi_next_ge σ₁ a p (by rw [h]; exact hp)]

theorem osi_run_congr (σ₁ σ₂ : Store) :
    ∀ (k : Nat) (it : ordered_sequence_iterator),
    σ₁.getD it._sequence [] = σ₂.getD it._sequence [] →
    runIter (ordered_sequence_iterator.next σ₁) k it =
      runIter (ordered_sequence_iterator.next σ₂) k it := by
  intro k
  induction k with
  | zero => intro it h; rfl
  | succ k ih =>
    intro it h
    have hn := osi_next_congr σ₁ σ₂ it h
    cases h2 : ordered_sequence_iterator.next σ₂ it with
    | mk o it2 =>
      have h1 : ordered_sequence_iterator.next σ₁ it = (o, it2) := by rw [hn, h2]
      have href : it2._sequence = it._sequence := by
        have := osi_next_ref σ₂ it
        rw [h2] at this
        exact this
      cases o with
      | some v =>
        simp only [runIter, h1, h2]
        rw [ih it2 (by rw [href]; exact h)]
      | none => simp only [runIter, h1, h2]

theorem runIter_preserve (next : α → Option β × α) (P : α → Prop)
    (hstep : ∀ a, P a → P (next a).2) :
    ∀ (k : Nat) (a : α), P a → P (runIter next k a).2 := by
  intro k
  induction k with
  | zero => intro a h; exact h
  | succ k ih =>
    intro a h
    have h2 : P (next a).2 := hstep a h
    cases hn : next a with
    | mk o a2 =>
      rw [hn] at h2
      cases o with
      | some v => simpa only [runIter, hn] using ih a2 h2
      | none => simpa only [runIter, hn] using h2

theorem file_next_meta (it : file_iterator) :
    ((file_iterator.next it).2)._f.name = it._f.name ∧
    ((file_iterator.next it).2)._f.mode = it._f.mode ∧
    ((file_iterator.next it).2)._f.content = it._f.content := by
  simp only [file_iterator.next, Handle.readline]
  split <;> exact ⟨rfl, rfl, rfl⟩

theorem gfile_next_meta (it : gfile_iterator) :
    ((gfile_iterator.next it).2)._f.name = it._f.name ∧
    ((gfile_iterator.next it).2)._f.mode = it._f.mode ∧
    ((gfile_iterator.next it).2)._f.myfileobj_mode = it._f.myfileobj_mode ∧
    ((gfile_iterator.next it).2)._f.content = it._f.content := by
  simp only [gfile_iterator.next, GzHandle.readline]
  split <;> exact ⟨rfl, rfl, rfl, rfl⟩

theorem codecs_next_inner (step : DecoderStep) (it : codecs_iterator) :
    ((codecs_iterator.next step it).2)._file_iterator =
      it._file_iterator.setRawPos
        (step it._stream it._file_iterator.rawContent it._file_iterator.rawPos).2.2 := by
  simp only [codecs_iterator.next]
  split <;> rfl

theorem innerConsistent_setRawPos (fs gfs : FS) (fi : FileIt) (p : Nat) :
    InnerConsistent fs gfs (fi.setRawPos p) ↔ InnerConsistent fs gfs fi := by
  cases fi <;> simp [FileIt.setRawPos, InnerConsistent]

def demoStore : Store := [[Val.int 10, Val.int 20, Val.int 30]]

def demoContent : List Char := ['a', '\n', 'b', '\n', 'c', '\n']

def demoFS : FS := fun n => if n = "f" then some demoContent else none

def demoGFS : FS := fun n => if n = "g" then some demoContent else none

def demoHandle : Handle := ⟨"f", "r", demoContent, 0⟩

def demoGzHandle : GzHandle := ⟨"g", 1, "rb", demoContent, 0⟩

def demoBufs : Buffers := ⟨[], [], none, "strict"⟩

def demoBufs2 : Buffers := ⟨['x'], ['y'], some [['z']], "replace"⟩

/-- A concrete decoder: a byte-passthrough line reader (used to instantiate
theorems that hold for every decoder). -/
def idStep : DecoderStep :=
  fun b c p => (takeLine (c.drop p), b, p + (takeLine (c.drop p)).length)

theorem idStep_fix : StepFix idStep := by
  intro b c p h
  simp only [idStep] at h ⊢
  simp [h]

/-- Round trip for the sequence wrapper over cell `a`: capturing after `k`
values and restoring yields the captured state back, and consuming
straight through produces the `k` consumed values followed by exactly what
the restored wrapper produces. -/
def RoundTripOSI (σ : Store) (a k m : Nat) : Prop :=
  ordered_sequence_iterator.setstate
      (ordered_sequence_iterator.getstate
        (runIter (ordered_sequence_iterator.next σ) k ⟨a, 0⟩).2) =
    (runIter (ordered_sequence_iterator.next σ) k ⟨a, 0⟩).2 ∧
  (runIter (ordered_sequence_iterator.next σ) (k + m) ⟨a, 0⟩).1 =
    (runIter (ordered_sequence_iterator.next σ) k ⟨a, 0⟩).1 ++
      (runIter (ordered_sequence_iterator.next σ) m
        (ordered_sequence_iterator.setstate
          (ordered_sequence_iterator.getstate
            (runIter (ordered_sequence_iterator.next σ) k ⟨a, 0⟩).2))).1

/-- Round trip for the file wrapper: restoring the state captured after
`k` lines reopens a handle equal to the captured one, and straight-through
consumption equals the prefix followed by the continuation. -/
def RoundTripFile (fs : FS) (it0 : file_iterator) (k m : Nat) : Prop :=
  file_iterator.setstate fs
      (file_iterator.getstate (runIter file_iterator.next k it0).2) =
    .ok (runIter file_iterator.next k it0).2 ∧
  (runIter file_iterator.next (k + m) it0).1 =
    (runIter file_iterator.next k it0).1 ++
      (runIter file_iterator.next m (runIter file_iterator.next k it0).2).1

/-- Round trip for the decoded-stream wrapper, for any decoder behavior
and any fresh-buffer value the stream generator may produce on rebuild. -/
def RoundTripCodecs (fs gfs : FS) (step : DecoderStep) (initB : Buffers)
    (c0 : codecs_iterator) (k m : Nat) : Prop :=
  codecs_iterator.setstate fs gfs initB
      (codecs_iterator.getstate (runIter (codecs_iterator.next step) k c0).2) =
    .ok (runIter (codecs_iterator.next step) k c0).2 ∧
  (runIter (codecs_iterator.next step) (k + m) c0).1 =
    (runIter (codecs_iterator.next step) k c0).1 ++
      (runIter (codecs_iterator.next step) m
        (runIter (codecs_iterator.next step) k c0).2).1

/-- Round trip for the compressed-resource wrapper: restoring the state
captured after `k` lines reopens — through the decompressing open call —
a handle equal to the captured one, and straight-through consumption
equals the prefix followed by the continuation. -/
def RoundTripGFile (gfs : FS) (it0 : gfile_iterator) (k m : Nat) : Prop :=
  gfile_iterator.setstate gfs
      (gfile_iterator.getstate (runIter gfile_iterator.next k it0).2) =
    .ok (runIter gfile_iterator.next k it0).2 ∧
  (runIter gfile_iterator.next (k + m) it0).1 =
    (runIter gfile_iterator.next k it0).1 ++
      (runIter gfile_iterator.next m (runIter gfile_iterator.next k it0).2).1

/-- Round trip for the Python-2 range wrapper: capturing after `k` values
and restoring yields the captured state back, and consuming straight
through produces the `k` consumed values followed by exactly what the
restored wrapper produces. -/
def RoundTripRange (it0 : range_iterator) (k m : Nat) : Prop :=
  range_iterator.setstate
      (range_iterator.getstate (runIter range_iterator.next k it0).2) =
    (runIter range_iterator.next k it0).2 ∧
  (runIter range_iterator.next (k + m) it0).1 =
    (runIter range_iterator.next k it0).1 ++
      (runIter range_iterator.next m
        (range_iterator.setstate
          (range_iterator.getstate (runIter range_iterator.next k it0).2))).1

/-- C1: for every wrapper produced by the dispatcher over an input, and
for every number `k` of values consumed before a snapshot: capturing the
state, restoring it into a fresh wrapper and consuming the rest yields the
same remaining sequence of values as consuming straight through — for the
sequence wrapper (any store cell), the file wrapper (provided the named
resource still holds the captured content), the compressed-resource
wrapper (provided the decompressed view of the named resource still holds
the captured content and the GzipFile is open for reading), the range
wrapper (unconditionally), and the decoded-stream wrapper (for every
decoder that stays exhausted at end of stream, and every fresh-buffer
value used on rebuild).  `k + m` consumption covers every split of the
straight-through run. -/
theorem C1_round_trip (σ : Store) (a : Nat) (fs gfs : FS) (fit : file_iterator)
    (gfit : gfile_iterator) (rit : range_iterator)
    (step : DecoderStep) (initB : Buffers) (cit : codecs_iterator) (k m : Nat)
    (hfs : fs fit._f.name = some fit._f.content)
    (hgfs : gfs gfit._f.name = some gfit._f.content)
    (hgmode : gfit._f.mode = 1)
    (hc : InnerConsistent fs gfs cit._file_iterator)
    (hstep : StepFix step) :
    RoundTripOSI σ a k m ∧ RoundTripFile fs fit k m ∧
      RoundTripGFile gfs gfit k m ∧ RoundTripRange rit k m ∧
      RoundTripCodecs fs gfs step initB cit k m := by
  refine ⟨⟨?_, ?_⟩, ⟨?_, ?_⟩, ⟨?_, ?_⟩, ⟨?_, ?_⟩, ⟨?_, ?_⟩⟩
  · rfl
  · have happ := runIter_append (ordered_sequence_iterator.next σ)
      (fun x x' hx => (osi_next_none_fix σ x x' hx).2) k m ⟨a, 0⟩
    calc (runIter (ordered_sequence_iterator.next σ) (k + m) ⟨a, 0⟩).1
        = (runIter (ordered_sequence_iterator.next σ) k ⟨a, 0⟩).1 ++
            (runIter (ordered_sequence_iterator.next σ) m
              (runIter (ordered_sequence_iterator.next σ) k ⟨a, 0⟩).2).1 := by
          rw [happ]
      _ = _ := by rfl
  · have hpres := runIter_preserve file_iterator.next
      (fun x => fs x._f.name = some x._f.content)
      (fun x hx => by
        show fs ((file_iterator.next x).2)._f.name =
          some ((file_iterator.next x).2)._f.content
        rw [(file_next_meta x).1, (file_next_meta x).2.2]
        exact hx) k fit hfs
    exact file_setstate_getstate fs _ hpres
  · have happ := runIter_append file_iterator.next
      (fun x x' hx => (file_next_none_fix x x' hx).2) k m fit
    rw [happ]
  · have hpres := runIter_preserve gfile_iterator.next
      (fun x => gfs x._f.name = some x._f.content ∧ x._f.mode = 1)
      (fun x hx => by
        show gfs ((gfile_iterator.next x).2)._f.name =
            some ((gfile_iterator.next x).2)._f.content ∧
          ((gfile_iterator.next x).2)._f.mode = 1
        rw [(gfile_next_meta x).1, (gfile_next_meta x).2.2.2,
            (gfile_next_meta x).2.1]
        exact hx) k gfit ⟨hgfs, hgmode⟩
    exact gfile_setstate_getstate gfs _ hpres.1 hpres.2
  · have happ := runIter_append gfile_iterator.next
      (fun x x' hx => (gfile_next_none_fix x x' hx).2) k m gfit
    rw [happ]
  · rfl
  · have happ := runIter_append range_iterator.next
      (fun x x' hx => (range_next_none_fix x x' hx).2) k m rit
    calc (runIter range_iterator.next (k + m) rit).1
        = (runIter range_iterator.next k rit).1 ++
            (runIter range_iterator.next m
              (runIter range_iterator.next k rit).2).1 := by
          rw [happ]
      _ = _ := by rfl
  · have hpres := runIter_preserve (codecs_iterator.next step)
      (fun x => InnerConsistent fs gfs x._file_iterator)
      (fun x hx => by
        show InnerConsistent fs gfs (((codecs_iterator.next step x).2))._file_iterator
        rw [codecs_next_inner step x]
        exact (innerConsistent_setRawPos fs gfs x._file_iterator _).mpr hx)
      k cit hc
    exact codecs_setstate_getstate fs gfs initB _ hpres
  · have happ := runIter_append (codecs_iterator.next step)
      (fun x x' hx => codecs_next_none_fix step hstep x x' hx) k m cit
    rw [happ]

theorem C1_round_trip_witness :
    RoundTripOSI demoStore 0 1 2 ∧ RoundTripFile demoFS ⟨demoHandle⟩ 1 2 ∧
      RoundTripGFile demoGFS ⟨demoGzHandle⟩ 1 2 ∧
      RoundTripRange ⟨0, 3, 1, 0⟩ 1 2 ∧
      RoundTripCodecs demoFS demoGFS idStep demoBufs2
        ⟨.plain ⟨demoHandle⟩, demoBufs⟩ 1 2 :=
  C1_round_trip demoStore 0 demoFS demoGFS ⟨demoHandle⟩ ⟨demoGzHandle⟩ ⟨0, 3, 1, 0⟩
    idStep demoBufs2 ⟨.plain ⟨demoHandle⟩, demoBufs⟩ 1 2
    (by decide) (by decide) (by decide) (by rfl) idStep_fix

/-- C2: restoring a decoded-stream iterator from captured state first
restores the inner resource iterator (a failure there propagates before
any decoder is built), then builds a fresh decoder over the reopened raw
handle whose four buffer fields are overwritten with the captured values
(the result does not depend on the fresh buffers `initB` the generator
produced), and iteration on the restored wrapper then continues exactly
from the captured logical position. -/
theorem C2_restore_order (fs gfs : FS) (initB : Buffers) (st : CodecsState)
    (cit : codecs_iterator) (step : DecoderStep) (m : Nat)
    (hc : InnerConsistent fs gfs cit._file_iterator) :
    (∀ e, FileIt.setstate fs gfs st.inner_kind st.inner_state = .error e →
      codecs_iterator.setstate fs gfs initB st = .error e) ∧
    (∀ fi, FileIt.setstate fs gfs st.inner_kind st.inner_state = .ok fi →
      codecs_iterator.setstate fs gfs initB st =
        .ok ⟨fi, ⟨st.bytebuffer, st.charbuffer, st.linebuffer, st.errors⟩⟩) ∧
    codecs_iterator.setstate fs gfs initB (codecs_iterator.getstate cit) = .ok cit ∧
    (∀ it', codecs_iterator.setstate fs gfs initB (codecs_iterator.getstate cit) =
        .ok it' →
      runIter (codecs_iterator.next step) m it' =
        runIter (codecs_iterator.next step) m cit) := by
  have h3 := codecs_setstate_getstate fs gfs initB cit hc
  refine ⟨?_, ?_, h3, ?_⟩
  · intro e h
    simp [codecs_iterator.setstate, h]
  · intro fi h
    simp [codecs_iterator.setstate, h]
  · intro it' h
    rw [h3] at h
    cases h
    rfl

theorem C2_restore_order_witness :
    codecs_iterator.setstate demoFS demoGFS demoBufs2
        (codecs_iterator.getstate ⟨.plain ⟨demoHandle⟩, demoBufs⟩) =
      .ok ⟨.plain ⟨demoHandle⟩, demoBufs⟩ :=
  (C2_restore_order demoFS demoGFS demoBufs2
    (codecs_iterator.getstate ⟨.plain ⟨demoHandle⟩, demoBufs⟩)
    ⟨.plain ⟨demoHandle⟩, demoBufs⟩ idStep 0 (by rfl)).2.2.1

def PyObj.isFileShape : PyObj → Bool
  | .gzipfile _ => true
  | .file _ => true
  | _ => false

/-- C5: constructing the decoded-stream wrapper over anything that is not
an open plain-file or compressed-file handle fails immediately at
construction time (the assertion raises), before any iteration state is
created; over the two accepted shapes it succeeds with the corresponding
inner wrapper, never coercing the input. -/
theorem C5_construction_guard (py2 numpy_available : Bool) (σ : Store) (f : PyObj)
    (initB : Buffers) :
    (f.isFileShape = false →
      codecs_iterator.init py2 numpy_available σ f initB = .error "AssertionError") ∧
    (∀ h, f = PyObj.file h →
      codecs_iterator.init py2 numpy_available σ f initB = .ok ⟨.plain ⟨h⟩, initB⟩) ∧
    (∀ h, f = PyObj.gzipfile h →
      codecs_iterator.init py2 numpy_available σ f initB = .ok ⟨.gz ⟨h⟩, initB⟩) := by
  refine ⟨?_, ?_, ?_⟩
  · intro hshape
    cases f <;> simp_all [PyObj.isFileShape, codecs_iterator.init]
  · intro h hf
    subst hf
    simp [codecs_iterator.init, iter_]
  · intro h hf
    subst hf
    simp [codecs_iterator.init, iter_]

theorem C5_construction_guard_witness :
    codecs_iterator.init false true demoStore (PyObj.list 0) demoBufs =
      .error "AssertionError" :=
  (C5_construction_guard false true demoStore (PyObj.list 0) demoBufs).1 (by rfl)

/-- C6: the resource iterator's capture returns the triple
`(name, current byte offset, mode)` read at capture time; restore opens
that name with that mode and seeks to that offset; when the name no longer
resolves, restore fails with the propagated IOError (no retry, no partial
result). -/
theorem C6_resource_state (fs : FS) (it : file_iterator) (name mode : String)
    (pos : Nat) :
    file_iterator.getstate it = (it._f.name, it._f.tell, it._f.mode) ∧
    (∀ c, fs name = some c →
      file_iterator.setstate fs (name, pos, mode) = .ok ⟨⟨name, mode, c, pos⟩⟩) ∧
    (fs name = none →
      file_iterator.setstate fs (name, pos, mode) = .error "IOError") := by
  refine ⟨rfl, ?_, ?_⟩
  · intro c h
    simp [file_iterator.setstate, pyOpen, h, Handle.seek]
  · intro h
    simp [file_iterator.setstate, pyOpen, h]

theorem C6_resource_state_witness :
    file_iterator.setstate demoFS ("f", 2, "r") = .ok ⟨⟨"f", "r", demoContent, 2⟩⟩ ∧
    file_iterator.setstate demoFS ("missing", 2, "r") = .error "IOError" :=
  ⟨(C6_resource_state demoFS ⟨demoHandle⟩ "f" "r" 2).2.1 demoContent (by rfl),
   (C6_resource_state demoFS ⟨demoHandle⟩ "missing" "r" 2).2.2 (by decide)⟩

/-- C7: the compressed-resource iterator's capture reads the mode from the
raw file object nested inside the compression wrapper — it is insensitive
to the wrapper's own integer mode attribute — and restore reopens the name
through the decompressing open call (reading the decompressed view) and
seeks to the captured offset. -/
theorem C7_gzip_state (gfs : FS) (it : gfile_iterator) (x : Nat)
    (name mode : String) (pos : Nat) :
    gfile_iterator.getstate it = (it._f.name, it._f.tell, it._f.myfileobj_mode) ∧
    gfile_iterator.getstate ⟨{ it._f with mode := x }⟩ = gfile_iterator.getstate it ∧
    (∀ c, gfs name = some c →
      gfile_iterator.setstate gfs (name, pos, mode) = .ok ⟨⟨name, 1, mode, c, pos⟩⟩) ∧
    (gfs name = none →
      gfile_iterator.setstate gfs (name, pos, mode) = .error "IOError") := by
  refine ⟨rfl, rfl, ?_, ?_⟩
  · intro c h
    simp [gfile_iterator.setstate, gzipOpen, h, GzHandle.seek]
  · intro h
    simp [gfile_iterator.setstate, gzipOpen, h]

theorem C7_gzip_state_witness :
    gfile_iterator.setstate demoGFS ("g", 3, "rb") =
      .ok ⟨⟨"g", 1, "rb", demoContent, 3⟩⟩ ∧
    gfile_iterator.setstate demoGFS ("missing", 3, "rb") = .error "IOError" :=
  ⟨(C7_gzip_state demoGFS ⟨demoGzHandle⟩ 2 "g" "rb" 3).2.2.1 demoContent (by rfl),
   (C7_gzip_state demoGFS ⟨demoGzHandle⟩ 2 "missing" "rb" 3).2.2.2 (by decide)⟩

theorem osi_nextFull_store (σ : Store) (it : ordered_sequence_iterator) :
    (ordered_sequence_iterator.nextFull σ it).1 = σ := by
  simp only [ordered_sequence_iterator.nextFull]
  split <;> rfl

/-- The state of the sequence wrapper reachable after `k` calls to
`next()` from construction over cell `a`. -/
def osi_after (σ : Store) (a k : Nat) : ordered_sequence_iterator :=
  (runIter (ordered_sequence_iterator.next σ) k ⟨a, 0⟩).2

/-- C8: over every reachable state of the sequence iterator the position
invariant `0 <= position <= length` holds (positions are naturals, so the
lower bound is by construction); the iterator signals exhaustion exactly
when the position equals the length; below the length, `next()` returns
the element at the position and increments the position by one; and the
store — hence the wrapped container — is never mutated (`nextFull`
returns it unchanged), nor copied (the reference field stays `a`). -/
theorem C8_invariant (σ : Store) (a k : Nat) :
    (osi_after σ a k)._sequence = a ∧
    (osi_after σ a k)._position ≤ (σ.getD a []).length ∧
    ((ordered_sequence_iterator.next σ (osi_after σ a k)).1 = none ↔
      (osi_after σ a k)._position = (σ.getD a []).length) ∧
    (∀ h : (osi_after σ a k)._position < (σ.getD a []).length,
      ordered_sequence_iterator.next σ (osi_after σ a k) =
        (some ((σ.getD a []).get ⟨(osi_after σ a k)._position, h⟩),
          ⟨a, (osi_after σ a k)._position + 1⟩)) ∧
    (ordered_sequence_iterator.nextFull σ (osi_after σ a k)).1 = σ := by
  have hst : osi_after σ a k = ⟨a, min k (σ.getD a []).length⟩ := by
    simpa using osi_run_state σ k a 0 (Nat.zero_le _)
  rw [hst]
  dsimp only
  refine ⟨rfl, Nat.min_le_right _ _, ?_, ?_, osi_nextFull_store σ _⟩
  · by_cases h : min k (σ.getD a []).length < (σ.getD a []).length
    · rw [osi_next_lt σ a _ h]
      constructor
      · intro hx
        exact absurd hx (by simp)
      · intro hx
        omega
    · rw [osi_next_ge σ a _ h]
      constructor
      · intro _
        omega
      · intro _
        rfl
  · intro h
    exact osi_next_lt σ a _ h

theorem C8_invariant_witness :
    ordered_sequence_iterator.next demoStore (osi_after demoStore 0 1) =
      (some ((demoStore.getD 0 []).get ⟨(osi_after demoStore 0 1)._position,
        by decide⟩),
       ⟨0, (osi_after demoStore 0 1)._position + 1⟩) :=
  (C8_invariant demoStore 0 1).2.2.2.1 (by decide)

/-- C9: once a wrapper's `next()` has signalled exhaustion it is a fixed
point: the state is unchanged and every further call signals exhaustion
again, never a different outcome — for the sequence, file, compressed-file
and range wrappers unconditionally, and for the decoded-stream wrapper for
every decoder that stays exhausted at end of stream (for it, the state
after the repeat call is again unchanged). -/
theorem C9_exhaustion (σ : Store) :
    (∀ it it', ordered_sequence_iterator.next σ it = (none, it') →
      it' = it ∧ ordered_sequence_iterator.next σ it' = (none, it')) ∧
    (∀ it it', file_iterator.next it = (none, it') →
      it' = it ∧ file_iterator.next it' = (none, it')) ∧
    (∀ it it', gfile_iterator.next it = (none, it') →
      it' = it ∧ gfile_iterator.next it' = (none, it')) ∧
    (∀ it it', range_iterator.next it = (none, it') →
      it' = it ∧ range_iterator.next it' = (none, it')) ∧
    (∀ step, StepFix step → ∀ it it',
      codecs_iterator.next step it = (none, it') →
      codecs_iterator.next step it' = (none, it')) :=
  ⟨osi_next_none_fix σ, file_next_none_fix, gfile_next_none_fix,
   range_next_none_fix, fun step hs it it' h => codecs_next_none_fix step hs it it' h⟩

theorem C9_exhaustion_witness :
    (⟨0, 3⟩ : ordered_sequence_iterator) = ⟨0, 3⟩ ∧
    ordered_sequence_iterator.next demoStore ⟨0, 3⟩ = (none, ⟨0, 3⟩) :=
  (C9_exhaustion demoStore).1 ⟨0, 3⟩ ⟨0, 3⟩ (by decide)

/-- C10: dispatching a dict materializes its key sequence into a fresh
cell at dispatch time, so mutating the dict's cell afterwards does not
change what the returned iterator yields; a Python-2 list input, by
contrast, is wrapped by reference (the returned wrapper points at the very
cell of the input and the store is unchanged — no copy). -/
theorem C10_dict_materialize (py2 numpy_available : Bool) (σ : Store) (a n : Nat)
    (ks2 : List Val) (ha : a < σ.length) :
    iter_ py2 numpy_available σ (PyObj.dict a) =
      (σ ++ [σ.getD a []], .osi ⟨σ.length, 0⟩) ∧
    runIter (ordered_sequence_iterator.next ((σ ++ [σ.getD a []]).set a ks2)) n
        ⟨σ.length, 0⟩ =
      runIter (ordered_sequence_iterator.next (σ ++ [σ.getD a []])) n
        ⟨σ.length, 0⟩ ∧
    (py2 = true →
      iter_ py2 numpy_available σ (PyObj.list a) = (σ, .osi ⟨a, 0⟩)) := by
  refine ⟨rfl, ?_, ?_⟩
  · apply osi_run_congr
    have hne : a ≠ σ.length := Nat.ne_of_lt ha
    simp only [List.getD_eq_getElem?_getD]
    rw [List.getElem?_set_ne hne]
  · intro h
    subst h
    rfl

theorem C10_dict_materialize_witness :
    iter_ true true demoStore (PyObj.dict 0) =
      (demoStore ++ [demoStore.getD 0 []], .osi ⟨1, 0⟩) :=
  (C10_dict_materialize true true demoStore 0 1 [] (by decide)).1

/-- C3 counterexample: on Python 3 the dispatcher, given the list
`[10, 20, 30]`, does NOT return the sequence-wrapper type — the `list`
branch of `iter_` is inside the Python-2-only block, so the input falls
through to the host's native list iterator. -/
theorem C3_cex :
    (iter_ false true demoStore (PyObj.list 0)).2.isOSI = false ∧
    (iter_ false true demoStore (PyObj.list 0)).2 = .nativeSeq ⟨0, 0⟩ := by
  decide

/-- C3 amended: on Python 2 the dispatcher wraps the list `[10, 20, 30]`
in the sequence-wrapper type; on Python 3 it falls through to the host's
native list iterator.  In both cases the returned iterator yields 10, then
20, then 30, and signals exhaustion on the fourth call to `next()`. -/
theorem C3_amended :
    iter_ true true demoStore (PyObj.list 0) = (demoStore, .osi ⟨0, 0⟩) ∧
    iter_ false true demoStore (PyObj.list 0) = (demoStore, .nativeSeq ⟨0, 0⟩) ∧
    (runIter (ordered_sequence_iterator.next demoStore) 3 ⟨0, 0⟩).1 =
      [Val.int 10, Val.int 20, Val.int 30] ∧
    ordered_sequence_iterator.next demoStore
        (runIter (ordered_sequence_iterator.next demoStore) 3 ⟨0, 0⟩).2 =
      (none, ⟨0, 3⟩) ∧
    (runIter (native_sequence_iter.next demoStore) 3 ⟨0, 0⟩).1 =
      [Val.int 10, Val.int 20, Val.int 30] ∧
    native_sequence_iter.next demoStore
        (runIter (native_sequence_iter.next demoStore) 3 ⟨0, 0⟩).2 =
      (none, ⟨0, 3⟩) := by
  decide

/-- A codecs wrapper object none of whose attributes have been assigned
yet (the shape `__setstate__` runs on during unpickling). -/
def demoFreshCodecs : codecs_obj := ⟨none, false, none⟩

/-- C4 counterexample: when the stream generator raises while rebuilding
the decoder, `codecs_iterator.__setstate__` has already assigned the
`_file_iterator` and `_stream_generator` attributes — the restore raises,
yet the wrapper being restored is observably mutated. -/
theorem C4_cex :
    (codecs_iterator.setstate_mut (.error "ValueError") demoFreshCodecs
        (.plain ⟨demoHandle⟩, demoBufs)).2 = some "ValueError" ∧
    (codecs_iterator.setstate_mut (.error "ValueError") demoFreshCodecs
        (.plain ⟨demoHandle⟩, demoBufs)).1 ≠ demoFreshCodecs := by
  decide

/-- C4 amended: restore is atomic against resource-reopen failures — when
`open` fails, `file_iterator.__setstate__` raises before assigning
`self._f`, leaving the wrapper untouched — but it is not atomic against
decoder-rebuild failures: when the stream generator raises,
`codecs_iterator.__setstate__` has already assigned exactly the
`_file_iterator` and `_stream_generator` attributes (and `_stream` keeps
its prior value). -/
theorem C4_amended (fs : FS) (self : Option Handle) (st : String × Nat × String)
    (facRes : Except String Buffers) (cself : codecs_obj) (cst : FileIt × Buffers)
    (e : String) :
    (fs st.1 = none →
      file_iterator.setstate_mut fs self st = (self, some "IOError")) ∧
    (facRes = .error e →
      codecs_iterator.setstate_mut facRes cself cst =
        ({ cself with _file_iterator := some cst.1, _stream_generator := true },
          some e)) := by
  constructor
  · intro h
    simp [file_iterator.setstate_mut, pyOpen, h]
  · intro h
    subst h
    rfl

theorem C4_amended_witness :
    file_iterator.setstate_mut demoFS (some demoHandle) ("missing", 0, "r") =
      (some demoHandle, some "IOError") :=
  (C4_amended demoFS (some demoHandle) ("missing", 0, "r") (.ok demoBufs)
    demoFreshCodecs (.plain ⟨demoHandle⟩, demoBufs) "x").1 (by decide)
